import Mathlib

/-!
Verification development for the optimal-scaling inner solver of
`pypesto/hierarchical/optimal_scaling_solver.py`.

The Python functions are shallowly embedded over exact rationals (`ℚ`):
numpy arrays become `List ℚ` or functions `ℕ → ℚ`, dictionaries of options
become a structure, raised exceptions become `Except`/`Option`, and the
numpy `NaN` fill value of the reparameterization arrays becomes `Option ℚ`
(`none` plays the role of `NaN`, which propagates through arithmetic and is
unequal to every number).  All definitions are translated directly from the
source; theorems below settle the specification claims against them.
-/

namespace OptimalScaling

/-- The running minimum loop of `get_spline_domain` (also models `np.min`
as used by `get_min_max`): start from the first element and keep the
smaller value at each step. -/
def npMin (l : List ℚ) : ℚ :=
  l.foldl (fun a s => if s < a then s else a) (l.headD 0)

/-- The running maximum loop of `get_spline_domain` (also models `np.max`
as used by `get_min_max`): start from the first element and keep the
larger value at each step. -/
def npMax (l : List ℚ) : ℚ :=
  l.foldl (fun a s => if a < s then s else a) (l.headD 0)

/-- The options dictionary of `OptimalScalingInnerSolver`
(`method`, `reparameterized`, `intervalConstraints`, `minGap`). -/
structure OsOptions where
  method : String
  reparameterized : Bool
  intervalConstraints : String
  minGap : ℚ
deriving DecidableEq

/-- `OptimalScalingInnerSolver.get_default_options` (source lines 213-223). -/
def get_default_options : OsOptions :=
  { method := "reduced", reparameterized := true,
    intervalConstraints := "max", minGap := 1 / 10 ^ 16 }

/-- `OptimalScalingInnerSolver.__init__` (source lines 28-42): if no options
are given the defaults are used; `method == 'standard'` combined with
`reparameterized` raises `NotImplementedError`, modelled as `Except.error`. -/
def innerSolverInit (options : Option OsOptions) : Except String OsOptions :=
  let opts := options.getD get_default_options
  if opts.method = "standard" ∧ opts.reparameterized then
    Except.error
      "Combining standard approach with reparameterization not implemented."
  else
    Except.ok opts

/-- `compute_interval_constraints` (source lines 720-753).  `K` is
`len(xs)` (the number of categories), `simAll` the gathered simulation
values (`get_min_max` reduces them with `np.min`/`np.max`), `mode` is
`options['intervalConstraints']` and `minGap` is `options['minGap']`
(`none` when the key is absent, in which case `eps = 1e-16`).  The final
line of the source returns `interval_range, interval_gap + eps`; the
unknown-mode branch raises `ValueError`, modelled as `Except.error`. -/
def compute_interval_constraints (K : ℕ) (simAll : List ℚ) (mode : String)
    (minGap : Option ℚ) : Except String (ℚ × ℚ) :=
  let eps := minGap.getD (1 / 10 ^ 16)
  let min_simulation := npMin simAll
  let max_simulation := npMax simAll
  if mode = "max-min" then
    Except.ok ((max_simulation - min_simulation) / (2 * (K : ℚ) + 1),
      (max_simulation - min_simulation) / (4 * ((K : ℚ) - 1) + 1) + eps)
  else if mode = "max" then
    Except.ok (max_simulation / (2 * (K : ℚ) + 1),
      max_simulation / (4 * ((K : ℚ) - 1) + 1) + eps)
  else
    Except.error "intervalConstraints not implemented. Please use max or max-min."

/-- `get_spline_domain` (source lines 1019-1039), translated literally:
`K = len(sim_all)`, running min/max/range, then either the origin branch
(`N = floor(K/2)`, `delta_c = max/(N-1/2)`, `c_1 = delta_c`) or the shifted
branch (`N = ceil(K/2)`, `delta_c = range/(N-2)`, `c_1 = min - delta_c/2`).
Over `ℚ` a division by zero yields `0`; the Python floats instead produce
`inf`/`nan` there, so theorems about this model restrict to `K ≥ 5`, where
no divisor can vanish and the two semantics agree. -/
def get_spline_domain (sim_all : List ℚ) : ℕ × ℚ × ℚ :=
  let K := sim_all.length
  let min_all := npMin sim_all
  let max_all := npMax sim_all
  let range_all := max_all - min_all
  if min_all - range_all / ((((K + 1) / 2 : ℕ) : ℚ) - 2) < 0 then
    let N := K / 2
    (N, max_all / ((N : ℚ) - 1 / 2), max_all / ((N : ℚ) - 1 / 2))
  else
    let N := (K + 1) / 2
    let delta_c := range_all / ((N : ℚ) - 2)
    (N, delta_c, min_all - delta_c / 2)

/-- NaN-propagating addition on `Option ℚ` (numpy: `nan + x = nan`). -/
def oadd : Option ℚ → Option ℚ → Option ℚ
  | some a, some b => some (a + b)
  | _, _ => none

/-- NaN-propagating subtraction on `Option ℚ` (numpy: `nan - x = nan`). -/
def osub : Option ℚ → Option ℚ → Option ℚ
  | some a, some b => some (a - b)
  | _, _ => none

/-- One loop iteration of `y2xi` (source lines 765-775) for the inner
parameter of category `c`: category 1 stores `y[0] - interval_range` at
index 0, category `c > 1` stores
`y[c-1] - y[c-2] - interval_gap - interval_range` at index `c-1`. -/
def y2xi_step (bounds : List (Option ℚ)) (gap range : ℚ)
    (acc : List (Option ℚ)) (c : ℕ) : List (Option ℚ) :=
  if c = 1 then
    acc.set 0 (osub (bounds.getD 0 none) (some range))
  else
    acc.set (c - 1)
      (osub (osub (osub (bounds.getD (c - 1) none) (bounds.getD (c - 2) none))
        (some gap)) (some range))

/-- `y2xi` (source lines 756-777): the output array starts as an
all-`NaN` array of the input's shape, then the loop over `xs` (given here
by the category of each inner parameter) fills in one slot per category. -/
def y2xi (bounds : List (Option ℚ)) (xs : List ℕ) (gap range : ℚ) :
    List (Option ℚ) :=
  xs.foldl (y2xi_step bounds gap range) (List.replicate bounds.length none)

/-- One loop iteration of `xi2y` (source lines 795-805) for the inner
parameter of category `c`: category 1 stores `interval_range + xi[0]` at
index 0, category `c > 1` stores
`xi[c-1] + interval_gap + interval_range + out[c-2]`, reading `out[c-2]`
from the output array built so far. -/
def xi2y_step (xi : List (Option ℚ)) (gap range : ℚ)
    (acc : List (Option ℚ)) (c : ℕ) : List (Option ℚ) :=
  if c = 1 then
    acc.set 0 (oadd (some range) (xi.getD 0 none))
  else
    acc.set (c - 1)
      (oadd (oadd (oadd (xi.getD (c - 1) none) (some gap)) (some range))
        (acc.getD (c - 2) none))

/-- `xi2y` (source lines 780-806): all-`NaN` output array filled by the
loop over `xs`, where entries for categories above 1 depend on the output
entry of the previous category. -/
def xi2y (xi : List (Option ℚ)) (xs : List ℕ) (gap range : ℚ) :
    List (Option ℚ) :=
  xs.foldl (xi2y_step xi gap range) (List.replicate xi.length none)

/-- Admissibility of a bound vector `y` in the sense of the claim: the
first bound is at least `interval_range` and successive bounds are
separated by at least `interval_range + interval_gap` (hence `y` is
non-decreasing when both are non-negative). -/
def admissible (y : List ℚ) (gap range : ℚ) : Prop :=
  (y ≠ [] → range ≤ y.headD 0) ∧ y.Chain' (fun a b => a + (range + gap) ≤ b)

instance (y : List ℚ) (gap range : ℚ) : Decidable (admissible y gap range) := by
  unfold admissible
  infer_instance

/-- Entry `(i, j)` of the matrix
`a = np.diag(-np.ones(n), -1) + np.diag(np.ones(n+1))` after the square
trim, as built by both `get_monotonicity_constraints` (source lines
314-323) and `get_constraints_for_optimization` (source lines 875-901):
`1` on the diagonal, `-1` on the subdiagonal. -/
def monoA (i j : ℕ) : ℚ :=
  (if i = j then 1 else 0) + (if i = j + 1 then -1 else 0)

/-- `get_monotonicity_constraints(N)` (source lines 314-323): the value of
component `i` of the constraint function `x ↦ a.dot(x) - b` with `b = 0`,
for the `N × N` bidiagonal matrix `monoA`. -/
def get_monotonicity_constraints (N : ℕ) (x : ℕ → ℚ) (i : ℕ) : ℚ :=
  (∑ j ∈ Finset.range N, monoA i j * x j) - 0

/-- The right-hand side `b` of the reduced branch of
`get_constraints_for_optimization`: `b[0] = interval_range`,
`b[1:] = interval_range + interval_gap`. -/
def bRed (ir ig : ℚ) (i : ℕ) : ℚ :=
  if i = 0 then ir else ir + ig

/-- The right-hand side `b` of the standard branch of
`get_constraints_for_optimization`: `b[0] = 0`, `b[1::2] = interval_range`,
`b[2::2] = interval_gap`. -/
def bStd (ir ig : ℚ) (i : ℕ) : ℚ :=
  if i = 0 then 0 else if i % 2 = 1 then ir else ig

/-- `get_constraints_for_optimization` (source lines 875-901) with
`num_categories = K` and `interval_range = ir`, `interval_gap = ig` (the
source obtains these from `compute_interval_constraints`): returns the
constraint dimension together with component `i` of the constraint
function `x ↦ a.dot(x) - b`.  The reduced branch uses the `K × K`
bidiagonal matrix and `bRed`; the standard branch the `2K × 2K` bidiagonal
matrix and `bStd`.  For any other method the source leaves `a`, `b`
unassigned and crashes; that case is modelled by a zero function. -/
def get_constraints_for_optimization (method : String) (K : ℕ) (ir ig : ℚ) :
    ℕ × ((ℕ → ℚ) → ℕ → ℚ) :=
  if method = "reduced" then
    (K, fun x i => (∑ j ∈ Finset.range K, monoA i j * x j) - bRed ir ig i)
  else if method = "standard" then
    (2 * K, fun x i => (∑ j ∈ Finset.range (2 * K), monoA i j * x j) - bStd ir ig i)
  else
    (0, fun _ _ => 0)

/-- The clipping step shared by `obj_spline` (source line 275),
`spline_get_Jacobian` (line 343), `spline_get_dxi_dtheta` (line 383) and
the gradient loop (line 182): `if (n > N): n = N + 1`. -/
def spline_clip (N : ℕ) (n : ℤ) : ℤ :=
  if n > (N : ℤ) then (N : ℤ) + 1 else n

/-- The segment index of a simulated value `y` in the spline code:
`n = math.ceil((y - c_1) / delta_c) + 1` followed by `spline_clip`. -/
def spline_n (N : ℕ) (delta_c c_1 y : ℚ) : ℤ :=
  spline_clip N (⌈(y - c_1) / delta_c⌉ + 1)

/-- `np.sum(np.abs(...))`: the sum of absolute values of a list. -/
def sumAbs (l : List ℚ) : ℚ :=
  l.foldl (fun a y => a + |y|) 0

/-- The contribution of one datapoint `(y, z)` to the sum accumulated by
`obj_spline` (source lines 269-282), with `i = n - 1`: the three branches
`1 < n < N+1` (linear interpolation between `xi[i-1]` and `xi[i]`),
`n = N+1` (clamp to last knot) and `n = 1` (linear from the origin);
when no branch applies the loop body adds nothing. -/
def obj_spline_term (N : ℕ) (delta_c c_1 : ℚ) (xi : ℕ → ℚ) (y z : ℚ) : ℚ :=
  let n := spline_n N delta_c c_1 y
  let i := (n - 1).toNat
  if n < (N : ℤ) + 1 ∧ 1 < n then
    (z - (y - c_1 - delta_c * ((n : ℚ) - 2)) * (xi i - xi (i - 1)) / delta_c
      - xi (i - 1)) ^ 2
  else if n = (N : ℤ) + 1 then
    (z - xi (i - 1)) ^ 2
  else if n = 1 then
    (z - y * xi i / c_1) ^ 2
  else 0

/-- `obj_spline` (source lines 257-285): recomputes
`w = np.sum(np.abs(sim_all)) + 1e-8`, obtains `(N, delta_c, c_1)` from
`get_spline_domain`, accumulates `obj_spline_term` over the zipped
simulation/measurement lists, and divides by `w`. -/
def obj_spline (xi : ℕ → ℚ) (sim_all measurements : List ℚ) : ℚ :=
  let w := sumAbs sim_all + 1 / 10 ^ 8
  let d := get_spline_domain sim_all
  ((sim_all.zip measurements).foldl
    (fun acc p => acc + obj_spline_term d.1 d.2.1 d.2.2 xi p.1 p.2) 0) / w

/-- The branch selector of the datapoint loop in `spline_get_dxi_dtheta`
(source lines 386-401), applied to the already clipped index `n`:
branch `0` is `if (n == N+1)`, branch `1` is `elif (n < N+1)`, branch `2`
is the final `elif (n > 1)` (the one containing the malformed expression
`y_k - c_1 (n-1)*delta_c`), branch `3` is falling through the chain. -/
def spline_dxi_dtheta_branch (N : ℕ) (n : ℤ) : ℕ :=
  if n = (N : ℤ) + 1 then 0
  else if n < (N : ℤ) + 1 then 1
  else if 1 < n then 2
  else 3

/-- One inner optimization result as consumed by
`calculate_obj_function`: the `success` flag and the `fun` value. -/
structure InnerOptResult where
  success : Bool
  funValue : ℚ

/-- `OptimalScalingInnerSolver.calculate_obj_function` (source lines
77-98): if `False` occurs among the `success` flags the result is `NaN`
(modelled as `none`, emitted together with a warning in the source),
otherwise the `np.sum` of the `fun` values. -/
def calculate_obj_function (x_inner_opt : List InnerOptResult) : Option ℚ :=
  if (x_inner_opt.map (fun r => r.success)).contains false then
    none
  else
    some ((x_inner_opt.map (fun r => r.funValue)).sum)

/-- Python's `str.split(',')` on a character list: splitting `""` gives
`[""]` and separators at the ends produce empty pieces. -/
def splitOnComma : List Char → List (List Char)
  | [] => [[]]
  | c :: t =>
    if c = ',' then [] :: splitOnComma t
    else
      match splitOnComma t with
      | h :: r => (c :: h) :: r
      | [] => [[c]]

/-- Sign handling of Python's `float()`: an optional leading `'-'` or
`'+'` is stripped, recording negativity. -/
def pySign (cs0 : List Char) : Bool × List Char :=
  match cs0 with
  | [] => (false, [])
  | c :: t =>
    if c = '-' then (true, t)
    else if c = '+' then (false, t)
    else (false, c :: t)

/-- Split a character list at the first `'.'`: the pair of the part
before it and the part after it (the whole list and `[]` when absent). -/
def splitDot : List Char → List Char × List Char
  | [] => ([], [])
  | c :: t =>
    if c = '.' then ([], t)
    else ((c :: (splitDot t).1), (splitDot t).2)

/-- Decimal digit value of a character, `none` for a non-digit. -/
def digitVal (c : Char) : Option ℕ :=
  if c = '0' then some 0 else if c = '1' then some 1 else if c = '2' then some 2
  else if c = '3' then some 3 else if c = '4' then some 4
  else if c = '5' then some 5 else if c = '6' then some 6
  else if c = '7' then some 7 else if c = '8' then some 8
  else if c = '9' then some 9 else none

/-- Left-to-right accumulation of a digit string into a number, `none` on
the first non-digit. -/
def digitsToNatAux : ℕ → List Char → Option ℕ
  | a, [] => some a
  | a, c :: t => (digitVal c).bind fun d => digitsToNatAux (10 * a + d) t

/-- Model of Python's `float()` on plain decimal literals (optional sign,
integer digits, optional fractional digits): `none` models the
`ValueError` raised on a malformed string. -/
def pyFloat (cs0 : List Char) : Option ℚ :=
  let signed := pySign cs0
  let p := splitDot signed.2
  if p.1.length + p.2.length = 0 then none
  else
    match digitsToNatAux 0 p.1, digitsToNatAux 0 p.2 with
    | some a, some b =>
      let v : ℚ := (a : ℚ) + (b : ℚ) / 10 ^ p.2.length
      some (if signed.1 then -v else v)
    | _, _ => none

/-- `get_bounds_from_hard_constraints` (source lines 940-972).  The
constraint table row for the category is looked up (`none` models the
`IndexError` when it is missing), spaces are removed from the measurement
string, and the `'>L'`/`'<U'`/`'>L,<U'` forms are parsed with `float`
(initial sentinels `-1` mean "no constraint").  The returned pair is
`(x_upper, x_lower)` in the source's order; when no lower constraint was
parsed and the category is not 1 the source never assigns `x_lower` and
raises `UnboundLocalError` at the return, modelled as `none`. -/
def get_bounds_from_hard_constraints (category : ℕ)
    (hard_constraints : List (ℕ × List Char)) (max_upper : ℚ) :
    Option (ℚ × ℚ) :=
  match hard_constraints.find? (fun row => row.1 == category) with
  | none => none
  | some row =>
    let measurement := row.2.filter (fun c => c ≠ ' ')
    let parsed : Option (ℚ × ℚ) :=
      if measurement.contains '<' && measurement.contains '>' then
        match splitOnComma measurement with
        | a :: b :: _ =>
          (pyFloat (a.drop 1)).bind fun lo =>
            (pyFloat (b.drop 1)).map fun up => (lo, up)
        | _ => none
      else if measurement.contains '<' then
        (pyFloat (measurement.drop 1)).map fun up => ((-1 : ℚ), up)
      else if measurement.contains '>' then
        (pyFloat (measurement.drop 1)).map fun lo => (lo, (-1 : ℚ))
      else some (-1, -1)
    parsed.bind fun lu =>
      let x_upper := if lu.2 = -1 then max_upper else lu.2
      if lu.1 ≠ -1 then some (x_upper, lu.1 + 1 / 10 ^ 6)
      else if category = 1 then some (x_upper, 0)
      else none

/-- One inner parameter (category) of a group together with the simulated
values selected by its masks (the flattening of `sim_i[mask_i]` over the
conditions, in loop order). -/
structure InnerPar where
  category : ℕ
  simVals : List ℚ

/-- The squared residual of one simulated value against the category
bounds, following the clipping chain of the source (lines 928-936):
below the lower bound the surrogate is `x_lower`, above the upper bound it
is `x_upper`, inside the interval it is the value itself (zero residual),
and the unreachable final `else` contributes nothing. -/
def surrogate_sq (x_lower x_upper y : ℚ) : ℚ :=
  if x_lower > y then (x_lower - y) ^ 2
  else if y > x_upper then (x_upper - y) ^ 2
  else if x_lower ≤ y ∧ y ≤ x_upper then (y - y) ^ 2
  else 0

/-- `calculate_obj_fun_for_hard_constraints` (source lines 903-938):
interval constraints are computed, `w = np.sum(np.abs(sim_all)) + 1e-8`
(`get_weight_for_surrogate`), `max_upper` extends the simulation maximum
by `(interval_range + interval_gap) * len(xs)`, and for every category the
bounds come from `get_bounds_from_hard_constraints` — no inner optimizer
is involved.  A `none` result models the propagation of an exception from
the constraint parsing or from an unknown interval-constraint mode. -/
def calculate_obj_fun_for_hard_constraints (xs : List InnerPar)
    (hard_constraints : List (ℕ × List Char)) (mode : String)
    (minGap : Option ℚ) : Option ℚ :=
  let sim_all := (xs.map InnerPar.simVals).flatten
  match compute_interval_constraints xs.length sim_all mode minGap with
  | Except.error _ => none
  | Except.ok p =>
    let w := sumAbs sim_all + 1 / 10 ^ 8
    let max_upper := npMax sim_all + (p.1 + p.2) * (xs.length : ℚ)
    (xs.foldlM (fun acc x =>
        (get_bounds_from_hard_constraints x.category hard_constraints
          max_upper).map
          (fun bounds =>
            acc + x.simVals.foldl
              (fun a y => a + surrogate_sq bounds.2 bounds.1 y) 0))
      (0 : ℚ)).map (fun obj => obj / w)

/-- C10: in `spline_get_dxi_dtheta` the clipped segment index never
exceeds `N + 1`, so every datapoint is handled by the `n == N+1` branch
(selector `0`) or by the `n < N+1` branch (selector `1`); the final
`elif n > 1` branch (selector `2`), which contains the malformed
expression `y_k - c_1 (n-1)*delta_c`, is unreachable for every input. -/
theorem C10_dead_branch (N : ℕ) (delta_c c_1 y : ℚ) (n0 : ℤ) :
    spline_clip N n0 ≤ (N : ℤ) + 1 ∧
    spline_dxi_dtheta_branch N (spline_clip N n0) ≠ 2 ∧
    (spline_dxi_dtheta_branch N (spline_n N delta_c c_1 y) = 0 ∨
      spline_dxi_dtheta_branch N (spline_n N delta_c c_1 y) = 1) := by
  unfold spline_n spline_clip spline_dxi_dtheta_branch
  refine ⟨?_, ?_, ?_⟩ <;> split_ifs <;> omega

/-- C9: configuration errors fail immediately: constructing the solver
with `method = 'standard'` and `reparameterized = true` is an error, and
`compute_interval_constraints` with a mode that is neither `'max'` nor
`'max-min'` is an error instead of a silent default. -/
theorem C9_config_errors (ic : String) (mg : ℚ) (K : ℕ) (simAll : List ℚ)
    (mode : String) (minGap : Option ℚ)
    (h1 : mode ≠ "max") (h2 : mode ≠ "max-min") :
    innerSolverInit (some ⟨"standard", true, ic, mg⟩)
      = Except.error
          "Combining standard approach with reparameterization not implemented." ∧
    compute_interval_constraints K simAll mode minGap
      = Except.error
          "intervalConstraints not implemented. Please use max or max-min." := by
  constructor
  · unfold innerSolverInit
    simp
  · unfold compute_interval_constraints
    simp [h1, h2]

/-- Witness for C9 at the concrete unknown mode `"maxmin"`. -/
theorem C9_config_errors_witness :
    innerSolverInit (some ⟨"standard", true, "max", 1⟩)
      = Except.error
          "Combining standard approach with reparameterization not implemented." ∧
    compute_interval_constraints 3 [0, 5, 10] "maxmin" none
      = Except.error
          "intervalConstraints not implemented. Please use max or max-min." :=
  C9_config_errors "max" 1 3 [0, 5, 10] "maxmin" none
    (by decide) (by decide)

/-- C6: `calculate_obj_function` returns `NaN` (modelled `none`) exactly
when some inner result has `success = false`, and otherwise the sum of the
per-group `fun` values. -/
theorem C6_calculate_obj_function (rs : List InnerOptResult) :
    ((∃ r ∈ rs, r.success = false) → calculate_obj_function rs = none) ∧
    ((∀ r ∈ rs, r.success = true) →
      calculate_obj_function rs
        = some ((rs.map (fun r => r.funValue)).sum)) := by
  unfold calculate_obj_function
  have hcont : ((rs.map (fun r => r.success)).contains false = true)
      ↔ ∃ r ∈ rs, r.success = false := by
    simp [List.contains, List.elem_iff]
  constructor
  · intro h
    rw [if_pos (hcont.mpr h)]
  · intro h
    rw [if_neg]
    intro hc
    obtain ⟨r, hr, hs⟩ := hcont.mp hc
    exact absurd (h r hr) (by simp [hs])

/-- Witness for C6 on a two-element success list and a failing list. -/
theorem C6_calculate_obj_function_witness :
    calculate_obj_function [⟨true, 2⟩, ⟨true, 3⟩]
      = some (([⟨true, 2⟩, ⟨true, 3⟩] : List InnerOptResult).map
          (fun r => r.funValue)).sum ∧
    calculate_obj_function [⟨true, 2⟩, ⟨false, 3⟩] = none :=
  ⟨(C6_calculate_obj_function [⟨true, 2⟩, ⟨true, 3⟩]).2 (by simp),
   (C6_calculate_obj_function [⟨true, 2⟩, ⟨false, 3⟩]).1
     ⟨⟨false, 3⟩, List.Mem.tail _ (List.Mem.head _), rfl⟩⟩

/-- C4 counterexample: at `K = 3` categories, `max_sim = 10`,
`minGap = 1/100`, the returned gap is `10/9 + 1/100`: `minGap` is added to
`max_sim / (4(K-1)+1)`, not a floor of it, and the value differs from the
claimed `2 + minGap`. -/
theorem C4_counterexample :
    compute_interval_constraints 3 [0, 5, 10] "max" (some (1 / 100))
      = Except.ok (10 / 7, 10 / 9 + 1 / 100) ∧
    (10 / 9 + 1 / 100 : ℚ) ≠ max (10 / 9) (1 / 100) ∧
    (10 / 9 + 1 / 100 : ℚ) ≠ 2 + 1 / 100 := by
  refine ⟨?_, ?_, by norm_num⟩
  · unfold compute_interval_constraints npMin npMax
    norm_num
  · rw [max_eq_left (by norm_num)]
    norm_num

/-- C4 amended: in `MAX` mode `compute_interval_constraints` returns
`interval_range = max_sim / (2K+1)` and
`interval_gap = max_sim / (4(K-1)+1) + minGap` (the gap is increased by
`minGap`, not floored by it); in particular for `max_sim = 10`, `K = 3`
it returns `interval_range = 10/7` and `interval_gap = 10/9 + minGap`. -/
theorem C4_amended (K : ℕ) (simAll : List ℚ) (mg : ℚ) :
    compute_interval_constraints K simAll "max" (some mg)
      = Except.ok (npMax simAll / (2 * (K : ℚ) + 1),
          npMax simAll / (4 * ((K : ℚ) - 1) + 1) + mg) ∧
    compute_interval_constraints 3 [0, 5, 10] "max" (some mg)
      = Except.ok (10 / 7, 10 / 9 + mg) := by
  constructor
  · unfold compute_interval_constraints
    simp
  · unfold compute_interval_constraints npMin npMax
    norm_num

/-- The bidiagonal matrix-vector product: row `i < N` of `a.dot(x)` equals
`x i` minus the previous entry (or minus nothing in row 0). -/
lemma monoA_dot (N : ℕ) (x : ℕ → ℚ) (i : ℕ) (hi : i < N) :
    (∑ j ∈ Finset.range N, monoA i j * x j)
      = x i - (if i = 0 then 0 else x (i - 1)) := by
  unfold monoA
  have hsplit : ∀ j, ((if i = j then (1 : ℚ) else 0)
      + (if i = j + 1 then -1 else 0)) * x j
      = (if i = j then x j else 0) + (if i = j + 1 then -(x j) else 0) := by
    intro j
    split_ifs <;> ring
  rw [Finset.sum_congr rfl (fun j _ => hsplit j), Finset.sum_add_distrib,
    Finset.sum_ite_eq (Finset.range N) i x]
  cases i with
  | zero =>
    have : ∀ j ∈ Finset.range N, (if 0 = j + 1 then -(x j) else 0) = 0 := by
      intro j _
      simp
    rw [Finset.sum_congr rfl this]
    simp [Finset.mem_range.mpr hi]
  | succ k =>
    have hrw : ∀ j ∈ Finset.range N,
        (if k + 1 = j + 1 then -(x j) else 0) = (if k = j then -(x j) else 0) := by
      intro j _
      simp
    rw [Finset.sum_congr rfl hrw,
      Finset.sum_ite_eq (Finset.range N) k (fun j => -(x j))]
    have hk : k ∈ Finset.range N := Finset.mem_range.mpr (by omega)
    simp [Finset.mem_range.mpr hi, hk]
    ring

/-- Reduction of `get_constraints_for_optimization` at the reduced method. -/
lemma gcfo_reduced (K : ℕ) (ir ig : ℚ) :
    get_constraints_for_optimization "reduced" K ir ig
      = (K, fun x i => (∑ j ∈ Finset.range K, monoA i j * x j) - bRed ir ig i) := by
  simp [get_constraints_for_optimization]

/-- Reduction of `get_constraints_for_optimization` at the standard method. -/
lemma gcfo_standard (K : ℕ) (ir ig : ℚ) :
    get_constraints_for_optimization "standard" K ir ig
      = (2 * K, fun x i =>
          (∑ j ∈ Finset.range (2 * K), monoA i j * x j) - bStd ir ig i) := by
  simp [get_constraints_for_optimization]

/-- C2: the feasible sets of the constraint functions handed to the inner
solvers contain only non-decreasing vectors: for the spline variant
(`get_monotonicity_constraints`, with `b = 0`) feasibility forces
`x 0 ≥ 0` and `x` non-decreasing; for the reduced variant of
`get_constraints_for_optimization` feasibility forces steps of at least
`interval_range + interval_gap`; for the standard variant steps of at
least `interval_range` (odd rows) or `interval_gap` (even rows) — hence
non-decreasing whenever the offsets are non-negative. -/
theorem C2_feasible_only_monotone :
    (∀ (N : ℕ) (x : ℕ → ℚ),
      (∀ i < N, 0 ≤ get_monotonicity_constraints N x i) →
      (∀ i, i + 1 < N → x i ≤ x (i + 1)) ∧ (0 < N → 0 ≤ x 0)) ∧
    (∀ (K : ℕ) (ir ig : ℚ) (x : ℕ → ℚ), 0 ≤ ir → 0 ≤ ig →
      (∀ i < K, 0 ≤ (get_constraints_for_optimization "reduced" K ir ig).2 x i) →
      ∀ i, i + 1 < K →
        x i ≤ x (i + 1) ∧ x i + (ir + ig) ≤ x (i + 1)) ∧
    (∀ (K : ℕ) (ir ig : ℚ) (x : ℕ → ℚ), 0 ≤ ir → 0 ≤ ig →
      (∀ i < 2 * K,
        0 ≤ (get_constraints_for_optimization "standard" K ir ig).2 x i) →
      ∀ i, i + 1 < 2 * K →
        x i ≤ x (i + 1) ∧
          x i + (if (i + 1) % 2 = 1 then ir else ig) ≤ x (i + 1)) := by
  refine ⟨?_, ?_, ?_⟩
  · intro N x h
    constructor
    · intro i hi
      have := h (i + 1) hi
      rw [get_monotonicity_constraints, monoA_dot N x (i + 1) hi] at this
      simp at this
      linarith
    · intro hN
      have := h 0 hN
      rw [get_monotonicity_constraints, monoA_dot N x 0 hN] at this
      simp at this
      linarith
  · intro K ir ig x hir hig h i hi
    have := h (i + 1) hi
    rw [gcfo_reduced] at this
    simp only at this
    rw [monoA_dot K x (i + 1) hi] at this
    simp [bRed] at this
    constructor <;> linarith
  · intro K ir ig x hir hig h i hi
    have := h (i + 1) hi
    rw [gcfo_standard] at this
    simp only at this
    rw [monoA_dot (2 * K) x (i + 1) hi] at this
    simp [bStd] at this
    constructor
    · rcases Nat.even_or_odd (i + 1) with he | ho
      · have h2 : (i + 1) % 2 = 0 := Nat.even_iff.mp he
        simp [h2] at this ⊢
        linarith
      · have h2 : (i + 1) % 2 = 1 := Nat.odd_iff.mp ho
        simp [h2] at this ⊢
        linarith
    · rcases Nat.even_or_odd (i + 1) with he | ho
      · have h2 : (i + 1) % 2 = 0 := Nat.even_iff.mp he
        simp [h2] at this ⊢
        linarith
      · have h2 : (i + 1) % 2 = 1 := Nat.odd_iff.mp ho
        simp [h2] at this ⊢
        linarith

/-- Witness for C2: the identity-like vector `x i = i` is feasible for
`get_monotonicity_constraints 2` and is indeed non-decreasing. -/
theorem C2_feasible_only_monotone_witness :
    (∀ i, i + 1 < 2 → (fun k : ℕ => (k : ℚ)) i ≤ (fun k : ℕ => (k : ℚ)) (i + 1)) ∧
    (0 < 2 → 0 ≤ (fun k : ℕ => (k : ℚ)) 0) :=
  C2_feasible_only_monotone.1 2 (fun k : ℕ => (k : ℚ)) (by
    intro i hi
    interval_cases i <;>
      norm_num [get_monotonicity_constraints, monoA, Finset.sum_range_succ])

/-- C3 counterexample: for the spec's own canonical input — 6 simulated
points spanning `[0, 10]` — `get_spline_domain` returns
`(N, delta_c, c_1) = (3, 4, 4)`, and the domain `[c_1, c_1 + (N-1)·delta_c]`
even extended by the half-step margin at the lower end starts at
`c_1 - delta_c/2 = 2`, which does not cover `min(sim) = 0`. -/
theorem C3_counterexample :
    get_spline_domain [0, 2, 4, 6, 8, 10] = (3, 4, 4) ∧
    npMin [0, 2, 4, 6, 8, 10] = 0 ∧
    ¬((get_spline_domain [0, 2, 4, 6, 8, 10]).2.2
        - (get_spline_domain [0, 2, 4, 6, 8, 10]).2.1 / 2
      ≤ npMin [0, 2, 4, 6, 8, 10]) := by
  have hmin : npMin [0, 2, 4, 6, 8, 10] = (0 : ℚ) := by
    norm_num [npMin, List.foldl_cons, List.foldl_nil]
  have hmax : npMax [0, 2, 4, 6, 8, 10] = (10 : ℚ) := by
    norm_num [npMax, List.foldl_cons, List.foldl_nil]
  have h : get_spline_domain [0, 2, 4, 6, 8, 10] = (3, 4, 4) := by
    simp only [get_spline_domain, hmin, hmax, List.length_cons, List.length_nil]
    norm_num
  refine ⟨h, hmin, ?_⟩
  rw [h, hmin]
  norm_num

/-- C3 amended: for at least 5 simulated points with `0 ≤ min < max`
(so that no divisor of `get_spline_domain` vanishes and the float and
exact semantics agree), the result satisfies `N ≥ 1`, `delta_c > 0`,
the upper end `c_1 + (N-1)·delta_c` covers `max(sim)`, and the lower end
covers `min(sim)` in the shifted branch (`c_1 ≤ min`) while in the origin
branch (`c_1 = delta_c`) the spline is anchored at the origin and `min ≥ 0`
lies in the extra `[0, c_1]` segment; the claimed half-step margin at the
lower end does not hold in the origin branch.  The output is a pure
function of the input, hence deterministic. -/
theorem C3_amended (simAll : List ℚ) (h5 : 5 ≤ simAll.length)
    (hmn : 0 ≤ npMin simAll) (hlt : npMin simAll < npMax simAll) :
    1 ≤ (get_spline_domain simAll).1 ∧
    0 < (get_spline_domain simAll).2.1 ∧
    npMax simAll ≤ (get_spline_domain simAll).2.2
        + (((get_spline_domain simAll).1 : ℚ) - 1)
          * (get_spline_domain simAll).2.1 ∧
    ((get_spline_domain simAll).2.2 ≤ npMin simAll ∨
      ((get_spline_domain simAll).2.2 = (get_spline_domain simAll).2.1 ∧
        0 ≤ npMin simAll)) ∧
    get_spline_domain simAll = get_spline_domain simAll := by
  simp only [get_spline_domain]
  set K := simAll.length with hK
  set mn := npMin simAll with hmn2
  set mx := npMax simAll with hmx2
  have hmxpos : 0 < mx := lt_of_le_of_lt hmn hlt
  split_ifs with hc
  · dsimp only
    have hN2 : 2 ≤ K / 2 := by omega
    have hNq : (2 : ℚ) ≤ ((K / 2 : ℕ) : ℚ) := by exact_mod_cast hN2
    have hq : (0 : ℚ) < ((K / 2 : ℕ) : ℚ) - 1 / 2 := by linarith
    have hd : mx / (((K / 2 : ℕ) : ℚ) - 1 / 2) * (((K / 2 : ℕ) : ℚ) - 1 / 2)
        = mx := div_mul_cancel₀ mx (ne_of_gt hq)
    have hdn : 0 ≤ mx / (((K / 2 : ℕ) : ℚ) - 1 / 2) :=
      le_of_lt (div_pos hmxpos hq)
    refine ⟨by omega, div_pos hmxpos hq, ?_, Or.inr ⟨rfl, hmn⟩, trivial⟩
    nlinarith [hd, hdn]
  · dsimp only
    have hN3 : 3 ≤ (K + 1) / 2 := by omega
    have hNq : (3 : ℚ) ≤ (((K + 1) / 2 : ℕ) : ℚ) := by exact_mod_cast hN3
    have hq : (0 : ℚ) < (((K + 1) / 2 : ℕ) : ℚ) - 2 := by linarith
    have hrpos : (0 : ℚ) < mx - mn := by linarith
    have hd : (mx - mn) / ((((K + 1) / 2 : ℕ) : ℚ) - 2)
        * ((((K + 1) / 2 : ℕ) : ℚ) - 2) = mx - mn :=
      div_mul_cancel₀ _ (ne_of_gt hq)
    have hdn : 0 ≤ (mx - mn) / ((((K + 1) / 2 : ℕ) : ℚ) - 2) :=
      le_of_lt (div_pos hrpos hq)
    refine ⟨by omega, div_pos hrpos hq, ?_, Or.inl (by linarith), trivial⟩
    nlinarith [hd, hdn]

/-- Witness for C3 on the concrete vector `[0, 1, 2, 3, 4, 10]`. -/
theorem C3_amended_witness :
    1 ≤ (get_spline_domain [0, 1, 2, 3, 4, 10]).1 ∧
    0 < (get_spline_domain [0, 1, 2, 3, 4, 10]).2.1 ∧
    npMax [0, 1, 2, 3, 4, 10] ≤ (get_spline_domain [0, 1, 2, 3, 4, 10]).2.2
        + (((get_spline_domain [0, 1, 2, 3, 4, 10]).1 : ℚ) - 1)
          * (get_spline_domain [0, 1, 2, 3, 4, 10]).2.1 ∧
    ((get_spline_domain [0, 1, 2, 3, 4, 10]).2.2 ≤ npMin [0, 1, 2, 3, 4, 10] ∨
      ((get_spline_domain [0, 1, 2, 3, 4, 10]).2.2
          = (get_spline_domain [0, 1, 2, 3, 4, 10]).2.1 ∧
        0 ≤ npMin [0, 1, 2, 3, 4, 10])) ∧
    get_spline_domain [0, 1, 2, 3, 4, 10] = get_spline_domain [0, 1, 2, 3, 4, 10] :=
  C3_amended [0, 1, 2, 3, 4, 10] (by norm_num)
    (by norm_num [npMin, List.foldl_cons, List.foldl_nil])
    (by norm_num [npMin, npMax, List.foldl_cons, List.foldl_nil])

/-- The value `y2xi` stores for category `j + 1` (0-based slot `j`) when
the bound vector reads `yv`: the first slot holds `yv 0 - range`, later
slots hold the successive gaps minus `gap + range`. -/
def xivf (yv : ℕ → ℚ) (gap range : ℚ) (j : ℕ) : ℚ :=
  if j = 0 then yv 0 - range else yv j - yv (j - 1) - gap - range

/-- State of the `y2xi` loop after processing categories `1..m` (in this
order): the first `m` slots hold the gap values `xivf`, the rest are still
`NaN`. -/
lemma y2xi_fold_spec (bounds : List (Option ℚ)) (g r : ℚ) (yv : ℕ → ℚ)
    (hb : ∀ j < bounds.length, bounds.getD j none = some (yv j)) :
    ∀ m, m ≤ bounds.length →
      ((List.range' 1 m).foldl (y2xi_step bounds g r)
          (List.replicate bounds.length none)).length = bounds.length ∧
      ∀ j < bounds.length,
        ((List.range' 1 m).foldl (y2xi_step bounds g r)
          (List.replicate bounds.length none))[j]?
          = some (if j < m then some (xivf yv g r j) else none) := by
  intro m
  induction m with
  | zero =>
    intro _
    refine ⟨by simp [List.range'_zero], ?_⟩
    intro j hj
    simp [List.range'_zero, List.getElem?_replicate, hj]
  | succ k ih =>
    intro hk
    obtain ⟨ihlen, ihspec⟩ := ih (le_trans (Nat.le_succ k) hk)
    rw [List.range'_concat, List.foldl_append]
    set S := (List.range' 1 k).foldl (y2xi_step bounds g r)
      (List.replicate bounds.length none) with hS
    simp only [List.foldl_cons, List.foldl_nil]
    have hstep : 1 + 1 * k = k + 1 := by omega
    rw [hstep]
    unfold y2xi_step
    split_ifs with hcc
    · have hk0 : k = 0 := by omega
      subst hk0
      have h0len : 0 < bounds.length := by omega
      refine ⟨by rw [List.length_set]; exact ihlen, ?_⟩
      intro j hj
      rw [List.getElem?_set]
      by_cases hj0 : j = 0
      · subst hj0
        rw [if_pos rfl, if_pos (by rw [ihlen]; exact h0len), hb 0 h0len]
        simp [osub, xivf]
      · rw [if_neg (fun h => hj0 h.symm), ihspec j hj]
        have h1 : ¬ j < 1 := by omega
        simp [h1]
    · have hkne : k ≠ 0 := by omega
      have h2 : k + 1 - 2 = k - 1 := by omega
      simp only [Nat.add_sub_cancel, h2]
      refine ⟨by rw [List.length_set]; exact ihlen, ?_⟩
      intro j hj
      rw [List.getElem?_set]
      by_cases hjk : k = j
      · subst hjk
        rw [if_pos rfl, if_pos (by rw [ihlen]; omega),
          hb k (by omega), hb (k - 1) (by omega)]
        have hlt : k < k + 1 := by omega
        simp [osub, xivf, hkne, hlt]
      · rw [if_neg hjk, ihspec j hj]
        have hiff : j < k ↔ j < k + 1 := by omega
        simp [hiff]

/-- State of the `xi2y` loop after processing categories `1..m` (in this
order): the first `m` slots already hold the reconstructed bounds `yv`,
the rest are still `NaN`. -/
lemma xi2y_fold_spec (xi : List (Option ℚ)) (g r : ℚ) (yv : ℕ → ℚ)
    (hx : ∀ j < xi.length, xi.getD j none = some (xivf yv g r j)) :
    ∀ m, m ≤ xi.length →
      ((List.range' 1 m).foldl (xi2y_step xi g r)
          (List.replicate xi.length none)).length = xi.length ∧
      ∀ j < xi.length,
        ((List.range' 1 m).foldl (xi2y_step xi g r)
          (List.replicate xi.length none))[j]?
          = some (if j < m then some (yv j) else none) := by
  intro m
  induction m with
  | zero =>
    intro _
    refine ⟨by simp [List.range'_zero], ?_⟩
    intro j hj
    simp [List.range'_zero, List.getElem?_replicate, hj]
  | succ k ih =>
    intro hk
    obtain ⟨ihlen, ihspec⟩ := ih (le_trans (Nat.le_succ k) hk)
    rw [List.range'_concat, List.foldl_append]
    set S := (List.range' 1 k).foldl (xi2y_step xi g r)
      (List.replicate xi.length none) with hS
    simp only [List.foldl_cons, List.foldl_nil]
    have hstep : 1 + 1 * k = k + 1 := by omega
    rw [hstep]
    unfold xi2y_step
    split_ifs with hcc
    · have hk0 : k = 0 := by omega
      subst hk0
      have h0len : 0 < xi.length := by omega
      refine ⟨by rw [List.length_set]; exact ihlen, ?_⟩
      intro j hj
      rw [List.getElem?_set]
      by_cases hj0 : j = 0
      · subst hj0
        rw [if_pos rfl, if_pos (by rw [ihlen]; exact h0len), hx 0 h0len]
        have hx0 : xivf yv g r 0 = yv 0 - r := by simp [xivf]
        rw [hx0]
        simp only [oadd]
        rw [if_pos (by omega : (0 : ℕ) < 0 + 1)]
        congr 2
        ring
      · rw [if_neg (fun h => hj0 h.symm), ihspec j hj]
        have h1 : ¬ j < 1 := by omega
        simp [h1]
    · have hkne : k ≠ 0 := by omega
      have h2 : k + 1 - 2 = k - 1 := by omega
      simp only [Nat.add_sub_cancel, h2]
      have hprev : S.getD (k - 1) none = some (yv (k - 1)) := by
        rw [List.getD_eq_getElem?_getD, ihspec (k - 1) (by omega)]
        have : k - 1 < k := by omega
        simp [this]
      refine ⟨by rw [List.length_set]; exact ihlen, ?_⟩
      intro j hj
      rw [List.getElem?_set]
      by_cases hjk : k = j
      · subst hjk
        rw [if_pos rfl, if_pos (by rw [ihlen]; omega), hx k (by omega), hprev]
        have hlt : k < k + 1 := by omega
        simp only [oadd, xivf, if_neg hkne, if_pos hlt]
        congr 2
        ring
      · rw [if_neg hjk, ihspec j hj]
        have hiff : j < k ↔ j < k + 1 := by omega
        simp [hiff]

/-- C1 counterexample: with categories `{1, 2}` each present exactly once
but listed in the order `[2, 1]`, the round-trip fails: `xi2y` processes
category 2 first and reads the still-`NaN` slot of category 1, so the
output is `[some 1, none]` (a `NaN` in slot 2) and not the admissible
input `y = [1, 3]` (here `interval_gap = interval_range = 1`). -/
theorem C1_counterexample :
    admissible [1, 3] 1 1 ∧
    xi2y (y2xi [some 1, some 3] [2, 1] 1 1) [2, 1] 1 1 ≠ [some 1, some 3] := by
  constructor
  · constructor
    · intro _
      norm_num [List.headD]
    · simp [List.chain'_cons]
      norm_num
  · simp [y2xi, xi2y, y2xi_step, xi2y_step, osub, oadd, List.replicate,
      List.getD]

/-- C1 amended: when the group's inner parameters are processed in
increasing category order `1, 2, …, K` (as the source's TODO comment at
lines 790-791 requires of the parameter sheet), the reparameterization
round-trips exactly: `xi2y (y2xi y) = y` for every admissible
non-decreasing `y` and all `interval_gap`, `interval_range`. -/
theorem C1_amended (y : List ℚ) (g r : ℚ) (_hadm : admissible y g r) :
    xi2y (y2xi (y.map some) (List.range' 1 y.length) g r)
      (List.range' 1 y.length) g r = y.map some := by
  have hb : ∀ j < (y.map some).length,
      (y.map some).getD j none = some (y.getD j 0) := by
    intro j hj
    rw [List.length_map] at hj
    rw [List.getD_eq_getElem?_getD, List.getElem?_map,
      List.getElem?_eq_getElem hj]
    simp [List.getD_eq_getElem?_getD, List.getElem?_eq_getElem hj]
  obtain ⟨hBlen, hBspec⟩ := y2xi_fold_spec (y.map some) g r
    (fun j => y.getD j 0) hb y.length (by rw [List.length_map])
  have hBdef : y2xi (y.map some) (List.range' 1 y.length) g r
      = (List.range' 1 y.length).foldl (y2xi_step (y.map some) g r)
          (List.replicate (y.map some).length none) := rfl
  have hBlen' : (y2xi (y.map some) (List.range' 1 y.length) g r).length
      = y.length := by
    rw [hBdef, hBlen, List.length_map]
  have hx : ∀ j < (y2xi (y.map some) (List.range' 1 y.length) g r).length,
      (y2xi (y.map some) (List.range' 1 y.length) g r).getD j none
        = some (xivf (fun j => y.getD j 0) g r j) := by
    intro j hj
    rw [hBlen'] at hj
    rw [hBdef, List.getD_eq_getElem?_getD,
      hBspec j (by rw [List.length_map]; exact hj)]
    simp [hj]
  obtain ⟨hTlen, hTspec⟩ := xi2y_fold_spec
    (y2xi (y.map some) (List.range' 1 y.length) g r) g r
    (fun j => y.getD j 0) hx y.length (le_of_eq hBlen'.symm)
  have hTdef : xi2y (y2xi (y.map some) (List.range' 1 y.length) g r)
        (List.range' 1 y.length) g r
      = (List.range' 1 y.length).foldl
          (xi2y_step (y2xi (y.map some) (List.range' 1 y.length) g r) g r)
          (List.replicate
            (y2xi (y.map some) (List.range' 1 y.length) g r).length none) := rfl
  apply List.ext_getElem?
  intro n
  by_cases hn : n < y.length
  · rw [hTdef, hTspec n (by rw [hBlen']; exact hn), List.getElem?_map,
      List.getElem?_eq_getElem hn]
    simp [hn, List.getD_eq_getElem?_getD, List.getElem?_eq_getElem hn]
  · have h1 : ((List.range' 1 y.length).foldl
        (xi2y_step (y2xi (y.map some) (List.range' 1 y.length) g r) g r)
        (List.replicate
          (y2xi (y.map some) (List.range' 1 y.length) g r).length none)).length
        ≤ n := by
      rw [hTlen, hBlen']
      omega
    have h2 : (y.map some).length ≤ n := by
      rw [List.length_map]
      omega
    rw [hTdef, List.getElem?_eq_none h1, List.getElem?_eq_none h2]

/-- Witness for C1 on the admissible vector `y = [1, 3]` with
`interval_gap = interval_range = 1` and categories in order `[1, 2]`. -/
theorem C1_amended_witness :
    xi2y (y2xi [some 1, some 3] (List.range' 1 2) 1 1) (List.range' 1 2) 1 1
      = [some 1, some 3] :=
  C1_amended [1, 3] 1 1
    ⟨fun _ => by norm_num [List.headD], by simp [List.chain'_cons]; norm_num⟩

/-- C5 counterexample: on the domain `(N, delta_c, c_1) = (3, 4, 4)`
produced by `get_spline_domain` for simulations spanning `[0, 10]`, the
datapoint `y = 0` gets segment index `n = ceil((0-4)/4)+1 = 0`: the code
clips only from above, `n` is NOT in `[1, N+1]`, and the datapoint
contributes `0` to the objective even though each of the three branch
formulas would contribute a non-zero residual (here `z = 1`,
`xi ≡ 5`: the `n=1` formula gives `1`, the middle and `n=N+1` formulas
give `16`). -/
theorem C5_counterexample :
    get_spline_domain [0, 2, 4, 6, 8, 10] = (3, 4, 4) ∧
    spline_n 3 4 4 0 = 0 ∧
    ¬(1 ≤ spline_n 3 4 4 0) ∧
    obj_spline_term 3 4 4 (fun _ => 5) 0 1 = 0 ∧
    ((1 : ℚ) - 0 * 5 / 4) ^ 2 ≠ 0 ∧
    ((1 : ℚ) - (0 - 4 - 4 * ((0 : ℚ) - 2)) * (5 - 5) / 4 - 5) ^ 2 ≠ 0 ∧
    ((1 : ℚ) - 5) ^ 2 ≠ 0 := by
  have hmin : npMin [0, 2, 4, 6, 8, 10] = (0 : ℚ) := by
    norm_num [npMin, List.foldl_cons, List.foldl_nil]
  have hmax : npMax [0, 2, 4, 6, 8, 10] = (10 : ℚ) := by
    norm_num [npMax, List.foldl_cons, List.foldl_nil]
  have hdom : get_spline_domain [0, 2, 4, 6, 8, 10] = (3, 4, 4) := by
    simp only [get_spline_domain, hmin, hmax, List.length_cons, List.length_nil]
    norm_num
  have hceil : ⌈((0 : ℚ) - 4) / 4⌉ = -1 := by
    have h4 : ((0 : ℚ) - 4) / 4 = ((-1 : ℤ) : ℚ) := by norm_num
    rw [h4, Int.ceil_intCast]
  have hn : spline_n 3 4 4 0 = 0 := by
    unfold spline_n spline_clip
    rw [hceil]
    norm_num
  have hterm : obj_spline_term 3 4 4 (fun _ => 5) 0 1 = 0 := by
    simp only [obj_spline_term, hn]
    norm_num
  refine ⟨hdom, hn, by rw [hn]; norm_num, hterm, by norm_num, by norm_num,
    by norm_num⟩

/-- C5 amended: the segment index `n = ceil((y_k - c_1)/delta_c) + 1` is
clipped only from above, to `n ≤ N + 1`; whenever the resulting `n` lies
in `[1, N+1]` the datapoint's contribution follows the three-branch
interpolation rule exactly (`n = 1`: `y_k·xi[1]/c_1` from the origin;
`1 < n < N+1`: linear interpolation over the segment; `n = N+1`: clamp to
the last knot), contributing exactly one residual term; a datapoint with
`n < 1` (possible, since there is no lower clip) contributes nothing.
`obj_spline` is the `w`-normalized sum of these per-datapoint terms. -/
theorem C5_amended (N : ℕ) (delta_c c_1 : ℚ) (xi : ℕ → ℚ) (y z : ℚ)
    (sim_all measurements : List ℚ) (hN : 1 ≤ N) :
    spline_n N delta_c c_1 y ≤ (N : ℤ) + 1 ∧
    (spline_n N delta_c c_1 y = 1 →
      obj_spline_term N delta_c c_1 xi y z = (z - y * xi 0 / c_1) ^ 2) ∧
    (∀ n : ℤ, spline_n N delta_c c_1 y = n → 1 < n → n < (N : ℤ) + 1 →
      obj_spline_term N delta_c c_1 xi y z
        = (z - (y - c_1 - delta_c * ((n : ℚ) - 2))
            * (xi (n.toNat - 1) - xi (n.toNat - 2)) / delta_c
            - xi (n.toNat - 2)) ^ 2) ∧
    (spline_n N delta_c c_1 y = (N : ℤ) + 1 →
      obj_spline_term N delta_c c_1 xi y z = (z - xi (N - 1)) ^ 2) ∧
    (spline_n N delta_c c_1 y < 1 →
      obj_spline_term N delta_c c_1 xi y z = 0) ∧
    obj_spline xi sim_all measurements
      = ((sim_all.zip measurements).foldl
          (fun acc p => acc + obj_spline_term (get_spline_domain sim_all).1
            (get_spline_domain sim_all).2.1 (get_spline_domain sim_all).2.2
            xi p.1 p.2) 0) / (sumAbs sim_all + 1 / 10 ^ 8) := by
  refine ⟨?_, ?_, ?_, ?_, ?_, rfl⟩
  · unfold spline_n spline_clip
    split_ifs <;> omega
  · intro h1
    simp only [obj_spline_term, h1]
    split_ifs <;> try omega
    all_goals norm_num
  · intro n hn h1 h2
    simp only [obj_spline_term, hn]
    rw [if_pos ⟨h2, h1⟩]
    rw [show (n - 1).toNat = n.toNat - 1 by omega,
      show n.toNat - 1 - 1 = n.toNat - 2 by omega]
  · intro h
    simp only [obj_spline_term, h]
    split_ifs <;> try omega
    all_goals rw [show (((N : ℤ) + 1) - 1).toNat = N by omega]
  · intro h
    simp only [obj_spline_term]
    split_ifs <;> first | omega | rfl

/-- Witness for C5: on the domain `(3, 4, 4)`, the datapoint `y = 100`
is clipped to the last-knot branch `n = N + 1`. -/
theorem C5_amended_witness :
    obj_spline_term 3 4 4 (fun k : ℕ => (k : ℚ)) 100 7
      = (7 - (fun k : ℕ => (k : ℚ)) (3 - 1)) ^ 2 :=
  (C5_amended 3 4 4 (fun k : ℕ => (k : ℚ)) 100 7 [] [] (by norm_num)).2.2.2.1
    (by
      unfold spline_n spline_clip
      have h24 : ((100 : ℚ) - 4) / 4 = ((24 : ℤ) : ℚ) := by norm_num
      rw [h24, Int.ceil_intCast]
      norm_num)

/-- A character that is not in a list is not `contains`-found in it. -/
lemma contains_false {l : List Char} {c : Char} (h : c ∉ l) :
    l.contains c = false := by
  rw [← Bool.not_eq_true]
  intro hc
  exact h (List.elem_iff.mp hc)

/-- `str.split(',')` on a comma-free string returns the whole string. -/
lemma splitOnComma_no_comma {cs : List Char} (h : ',' ∉ cs) :
    splitOnComma cs = [cs] := by
  induction cs with
  | nil => rfl
  | cons c t ih =>
    have hc : ¬(c = ',') := by
      intro hc
      exact h (by rw [hc]; exact List.mem_cons_self _ _)
    rw [splitOnComma, if_neg hc, ih (fun hm => h (List.mem_cons_of_mem c hm))]

/-- `str.split(',')` splits at the first comma. -/
lemma splitOnComma_append {a : List Char} (b : List Char) (ha : ',' ∉ a) :
    splitOnComma (a ++ ',' :: b) = a :: splitOnComma b := by
  induction a with
  | nil =>
    rw [List.nil_append, splitOnComma, if_pos rfl]
  | cons c t ih =>
    have hc : ¬(c = ',') := by
      intro hc
      exact ha (by rw [hc]; exact List.mem_cons_self _ _)
    rw [List.cons_append, splitOnComma, if_neg hc,
      ih (fun hm => ha (List.mem_cons_of_mem c hm))]

/-- Removing spaces from a space-free string changes nothing. -/
lemma filter_space_eq {l : List Char} (h : ' ' ∉ l) :
    l.filter (fun c => c ≠ ' ') = l := by
  rw [List.filter_eq_self]
  intro c hc
  simp only [decide_eq_true_eq]
  intro he
  exact h (he ▸ hc)

/-- The group loop of `calculate_obj_fun_for_hard_constraints`: when every
category's bounds resolve, the `Option`-valued fold returns the sum of the
per-category clipped residual sums. -/
lemma foldlM_bounds_sum (hc : List (ℕ × List Char)) (mU : ℚ)
    (ub lb : InnerPar → ℚ) :
    ∀ (xs : List InnerPar) (a : ℚ),
      (∀ x ∈ xs,
        get_bounds_from_hard_constraints x.category hc mU = some (ub x, lb x)) →
      List.foldlM (fun acc x =>
          (get_bounds_from_hard_constraints x.category hc mU).map
            (fun bounds => acc + x.simVals.foldl
              (fun a y => a + surrogate_sq bounds.2 bounds.1 y) 0)) a xs
        = some (a + (xs.map (fun x => x.simVals.foldl
            (fun a y => a + surrogate_sq (lb x) (ub x) y) 0)).sum) := by
  intro xs
  induction xs with
  | nil =>
    intro a _
    simp
  | cons x t ih =>
    intro a h
    rw [List.foldlM_cons, h x (List.mem_cons_self x t)]
    simp only [Option.map_some', Option.bind_eq_bind, Option.some_bind]
    rw [ih (a + x.simVals.foldl
        (fun a y => a + surrogate_sq (lb x) (ub x) y) 0)
      (fun y hy => h y (List.mem_cons_of_mem x hy))]
    rw [List.map_cons, List.sum_cons]
    congr 1
    ring

/-- C7 counterexample: a group whose category 2 carries the `'<U'`-only
constraint `'<5'` crashes instead of being clipped: the source never
assigns `x_lower` when there is no lower constraint and the category is
not 1, so `get_bounds_from_hard_constraints` raises `UnboundLocalError`
(modelled `none`) and the group objective is not computed. -/
theorem C7_counterexample :
    get_bounds_from_hard_constraints 2 [(2, ['<', '5'])] 100 = none ∧
    calculate_obj_fun_for_hard_constraints [⟨2, [3]⟩] [(2, ['<', '5'])] "max"
      (some (1 / 100)) = none := by
  have hgb : ∀ mu : ℚ,
      get_bounds_from_hard_constraints 2 [(2, ['<', '5'])] mu = none := by
    intro mu
    simp [get_bounds_from_hard_constraints, pyFloat, pySign, splitDot,
      digitVal, digitsToNatAux, splitOnComma, List.find?]
  refine ⟨hgb 100, ?_⟩
  simp [calculate_obj_fun_for_hard_constraints, compute_interval_constraints,
    npMin, npMax, hgb, List.foldlM_cons]

/-- Parsing a `'>L'` constraint: upper bound open (`max_upper`), lower
bound `L + 1e-6`, for every category. -/
lemma get_bounds_gt_spec (cat : ℕ) (mu L : ℚ) (lchars : List Char)
    (hl : ∀ c ∈ lchars, c ≠ '<' ∧ c ≠ '>' ∧ c ≠ ',' ∧ c ≠ ' ')
    (hpl : pyFloat lchars = some L) (hL : L ≠ -1) :
    get_bounds_from_hard_constraints cat [(cat, '>' :: lchars)] mu
      = some (mu, L + 1 / 10 ^ 6) := by
  have hmemL1 : '<' ∉ lchars := fun h => (hl _ h).1 rfl
  have hmemL2 : '>' ∉ lchars := fun h => (hl _ h).2.1 rfl
  have hfl : lchars.filter (fun c => !decide (c = ' ')) = lchars := by
    rw [List.filter_eq_self]
    intro c hc
    simp [(hl c hc).2.2.2]
  simp only [get_bounds_from_hard_constraints]
  rw [List.find?_cons_of_pos _ (by simp)]
  simp [hmemL1, hmemL2, hfl, hpl, hL]

/-- Parsing a `'<U'` constraint on category 1: upper bound `U`, lower
bound `0`. -/
lemma get_bounds_lt_spec (mu U : ℚ) (uchars : List Char)
    (hu : ∀ c ∈ uchars, c ≠ '<' ∧ c ≠ '>' ∧ c ≠ ',' ∧ c ≠ ' ')
    (hpu : pyFloat uchars = some U) (hU : U ≠ -1) :
    get_bounds_from_hard_constraints 1 [(1, '<' :: uchars)] mu
      = some (U, 0) := by
  have hmemU1 : '<' ∉ uchars := fun h => (hu _ h).1 rfl
  have hmemU2 : '>' ∉ uchars := fun h => (hu _ h).2.1 rfl
  have hfu : uchars.filter (fun c => !decide (c = ' ')) = uchars := by
    rw [List.filter_eq_self]
    intro c hc
    simp [(hu c hc).2.2.2]
  simp only [get_bounds_from_hard_constraints]
  rw [List.find?_cons_of_pos _ (by simp)]
  simp [hmemU1, hmemU2, hfu, hpu, hU]

/-- Parsing a `'>L,<U'` constraint: upper bound `U`, lower bound
`L + 1e-6`, for every category. -/
lemma get_bounds_both_spec (cat : ℕ) (mu L U : ℚ) (lchars uchars : List Char)
    (hl : ∀ c ∈ lchars, c ≠ '<' ∧ c ≠ '>' ∧ c ≠ ',' ∧ c ≠ ' ')
    (hu : ∀ c ∈ uchars, c ≠ '<' ∧ c ≠ '>' ∧ c ≠ ',' ∧ c ≠ ' ')
    (hpl : pyFloat lchars = some L) (hpu : pyFloat uchars = some U)
    (hL : L ≠ -1) (hU : U ≠ -1) :
    get_bounds_from_hard_constraints cat
        [(cat, ('>' :: lchars) ++ ',' :: '<' :: uchars)] mu
      = some (U, L + 1 / 10 ^ 6) := by
  have hcomma_l : ',' ∉ ('>' :: lchars) := by
    intro hm
    rcases List.mem_cons.mp hm with h | h
    · exact absurd h (by decide)
    · exact (hl _ h).2.2.1 rfl
  have hcomma_u : ',' ∉ ('<' :: uchars) := by
    intro hm
    rcases List.mem_cons.mp hm with h | h
    · exact absurd h (by decide)
    · exact (hu _ h).2.2.1 rfl
  have hfl : lchars.filter (fun c => !decide (c = ' ')) = lchars := by
    rw [List.filter_eq_self]
    intro c hc
    simp [(hl c hc).2.2.2]
  have hfu : uchars.filter (fun c => !decide (c = ' ')) = uchars := by
    rw [List.filter_eq_self]
    intro c hc
    simp [(hu c hc).2.2.2]
  have hsplit : splitOnComma ('>' :: (lchars ++ ',' :: '<' :: uchars))
      = ('>' :: lchars) :: [('<' :: uchars)] := by
    rw [show '>' :: (lchars ++ ',' :: '<' :: uchars)
        = ('>' :: lchars) ++ ',' :: '<' :: uchars from rfl,
      splitOnComma_append _ hcomma_l, splitOnComma_no_comma hcomma_u]
  simp only [get_bounds_from_hard_constraints]
  rw [List.find?_cons_of_pos _ (by simp)]
  simp [hfl, hfu, hsplit, hpl, hpu, hL, hU]

/-- C7 amended: the per-category bound strings of the forms `'>L'` (any
category) and `'>L,<U'` (any category) are parsed into the numeric pair
and `'<U'` is parsed for category 1; simulated values are clipped against
the resulting bounds and the group objective is the `w`-normalized sum of
clipped residuals, computed from the constraint strings, simulation and
options alone with no inner optimizer call — but a `'<U'`-only constraint
on a category other than 1 leaves the lower bound unassigned and the
computation fails (see the counterexample). -/
theorem C7_amended
    (cat : ℕ) (maxUp L U : ℚ) (lchars uchars : List Char)
    (hl : ∀ c ∈ lchars, c ≠ '<' ∧ c ≠ '>' ∧ c ≠ ',' ∧ c ≠ ' ')
    (hu : ∀ c ∈ uchars, c ≠ '<' ∧ c ≠ '>' ∧ c ≠ ',' ∧ c ≠ ' ')
    (hpl : pyFloat lchars = some L) (hpu : pyFloat uchars = some U)
    (hL : L ≠ -1) (hU : U ≠ -1)
    (xs : List InnerPar) (hcs : List (ℕ × List Char)) (mode : String)
    (mg : Option ℚ) (ir ig : ℚ) (ub lb : InnerPar → ℚ)
    (hok : compute_interval_constraints xs.length
        ((xs.map InnerPar.simVals).flatten) mode mg = Except.ok (ir, ig))
    (hb : ∀ x ∈ xs, get_bounds_from_hard_constraints x.category hcs
        (npMax ((xs.map InnerPar.simVals).flatten)
          + (ir + ig) * (xs.length : ℚ))
      = some (ub x, lb x)) :
    get_bounds_from_hard_constraints cat [(cat, '>' :: lchars)] maxUp
      = some (maxUp, L + 1 / 10 ^ 6) ∧
    get_bounds_from_hard_constraints 1 [(1, '<' :: uchars)] maxUp
      = some (U, 0) ∧
    get_bounds_from_hard_constraints cat
        [(cat, ('>' :: lchars) ++ ',' :: '<' :: uchars)] maxUp
      = some (U, L + 1 / 10 ^ 6) ∧
    calculate_obj_fun_for_hard_constraints xs hcs mode mg
      = some ((xs.map (fun x => x.simVals.foldl
          (fun a y => a + surrogate_sq (lb x) (ub x) y) 0)).sum
        / (sumAbs ((xs.map InnerPar.simVals).flatten) + 1 / 10 ^ 8)) := by
  refine ⟨get_bounds_gt_spec cat maxUp L lchars hl hpl hL,
    get_bounds_lt_spec maxUp U uchars hu hpu hU,
    get_bounds_both_spec cat maxUp L U lchars uchars hl hu hpl hpu hL hU, ?_⟩
  simp only [calculate_obj_fun_for_hard_constraints]
  rw [hok]
  dsimp only
  rw [foldlM_bounds_sum hcs
    (npMax ((xs.map InnerPar.simVals).flatten) + (ir + ig) * (xs.length : ℚ))
    ub lb xs 0 hb]
  simp only [Option.map_some', zero_add]

/-- Witness for C7: the concrete constraint strings `'>3'`, `'<7'`,
`'>3,<7'` parse to the claimed bounds, and the hard-constraint objective
of an empty group list evaluates without any optimizer. -/
theorem C7_amended_witness :
    get_bounds_from_hard_constraints 2 [(2, ['>', '3'])] 100
      = some (100, 3 + 1 / 10 ^ 6) ∧
    get_bounds_from_hard_constraints 1 [(1, ['<', '7'])] 100
      = some (7, 0) ∧
    get_bounds_from_hard_constraints 2 [(2, ['>', '3', ',', '<', '7'])] 100
      = some (7, 3 + 1 / 10 ^ 6) ∧
    calculate_obj_fun_for_hard_constraints [] [] "max" (some (1 / 100))
      = some ((0 : ℚ) / (0 + 1 / 10 ^ 8)) :=
  C7_amended 2 100 3 7 ['3'] ['7'] (by decide) (by decide)
    (by simp [pyFloat, pySign, splitDot, digitVal, digitsToNatAux])
    (by simp [pyFloat, pySign, splitDot, digitVal, digitsToNatAux])
    (by norm_num) (by norm_num) [] [] "max" (some (1 / 100)) 0 (1 / 100)
    (fun _ => 0) (fun _ => 0)
    (by simp [compute_interval_constraints, npMin, npMax])
    (by simp)

end OptimalScaling
